import Mathlib

set_option autoImplicit false

namespace Foundry

/-- Ethereum-style account address, abstracted to a natural number. -/
abbrev Address := Nat

/-- Raw calldata bytes, abstracted to a list of byte values. -/
abbrev Bytes := List Nat

/-- An emitted EVM log record, kept opaque: replay only moves logs around. -/
abbrev Log := Nat

/-- An auxiliary execution context (`foundry_evm_core::fork::Context`), kept opaque. -/
abbrev Context := Nat

/-- One call trace tree, kept opaque: replay only moves traces around. -/
abbrev TraceTree := Nat

/-- Kind tag attached to every collected trace. -/
inductive TraceKind where
  | Deployment
  | Setup
  | Execution
deriving DecidableEq, Repr

/-- Accumulated traces: a list of tagged trace trees. -/
abbrev Traces := List (TraceKind × TraceTree)

/-- Keys of an association list keyed by `Nat`. -/
def alKeys {α : Type} (m : List (Nat × α)) : List Nat := m.map Prod.fst

/-- Insert an entry into an association list, combining with an existing entry for the
same key via `c` (old value first, new value second), else appending at the end. -/
def alUpsert {α : Type} (c : α → α → α) (m : List (Nat × α)) (kv : Nat × α) :
    List (Nat × α) :=
  if m.any (fun p => p.1 == kv.1) then
    m.map (fun p => if p.1 == kv.1 then (p.1, c p.2 kv.2) else p)
  else
    m ++ [kv]

/-- Modelled from the spec: coverage (`foundry_evm_coverage::HitMaps`) is not among the
sources; per spec section 3 it is a mapping from code-location key to hit count. -/
abbrev HitMaps := List (Nat × Nat)

/-- Modelled from the spec: the merge operation of `HitMaps` is not among the sources;
per spec section 3 merging has union/sum semantics and must never drop previously
recorded hits. -/
def HitMaps.merge (a b : HitMaps) : HitMaps :=
  b.foldl (alUpsert (fun old new => old + new)) a

/-- Hit-location key set of an optional coverage accumulator. -/
def covKeys : Option HitMaps → List Nat
  | none => []
  | some m => alKeys m

/-- Identified contracts: a map from address to contract identity (name). -/
abbrev ContractsByAddress := List (Address × String)

/-- Known compiled artifacts, kept opaque: only threaded through to identification. -/
abbrev ContractsByArtifact := List String

/-- Modelled from the spec: the map-extend semantics used at the registry update site —
insert every newly identified entry, overwriting an existing entry for the same address. -/
def cbaExtend (m : ContractsByAddress) (new : List (Address × String)) :
    ContractsByAddress :=
  new.foldl (alUpsert (fun _old v => v)) m

/-- Look an address up in the registry. -/
def cbaLookup (m : ContractsByAddress) (k : Address) : Option String :=
  (m.find? (fun p => p.1 == k)).map Prod.snd

/-- A recorded sequence call: `(sender, (target, calldata))`, as in `foundry_evm_fuzz`. -/
abbrev BasicTxDetails := Address × (Address × Bytes)

/-- Modelled from the spec: `BaseCounterExample` from `foundry_evm_fuzz` is not among the
sources; per spec sections 3 and 4.3 a descriptor holds the call's sender, target, raw
payload, the best currently-known identity of the target, and the call's trace. -/
structure BaseCounterExample where
  sender : Address
  addr : Address
  calldata : Bytes
  contract_name : Option String
  traces : Option TraceTree
deriving DecidableEq, Repr

/-- Modelled from the spec: `BaseCounterExample::create(sender, addr, bytes, contracts,
traces)` builds one descriptor, resolving the target's identity in the current registry. -/
def BaseCounterExample.create (sender : Address) (addr : Address) (calldata : Bytes)
    (contracts : ContractsByAddress) (traces : Option TraceTree) : BaseCounterExample :=
  { sender := sender, addr := addr, calldata := calldata,
    contract_name := cbaLookup contracts addr, traces := traces }

/-- A reported counterexample; invariant replay produces the `Sequence` form. -/
inductive CounterExample where
  | Single (d : BaseCounterExample)
  | Sequence (seq : List BaseCounterExample)
deriving DecidableEq, Repr

/-- Per-call execution result returned by the engine (`RawCallResult`), restricted to
the fields `replay_run` reads. -/
structure RawCallResult where
  logs : List Log
  traces : Option TraceTree
  coverage : Option HitMaps
  contexts : List Context
deriving DecidableEq, Repr

/-- Engine-level execution error, kept opaque. -/
abbrev EngineError := String

/-- Modelled from the spec: the external execution engine interface (spec section 6).
`S` is the engine's committed state; each call also receives the executor's tracing
flag. `call_raw_committing` commits its state changes, `call_raw` does not, and
`load_contracts` scans traces for newly identified contracts. -/
structure Engine (S : Type) where
  call_raw_committing :
    Bool → S → Address → Address → Bytes → Except EngineError (RawCallResult × S)
  call_raw : Bool → S → Address → Address → Bytes → Except EngineError RawCallResult
  load_contracts : Traces → ContractsByArtifact → List (Address × String)

/-- Nested-generator shared state: the recorded last sequence plus the replay-mode flag.
The concurrency wrapper around it is modelled away; the sequential embedding makes the
single-writer-before-readers discipline implicit. -/
structure CallGenerator where
  last_sequence : List (Option BasicTxDetails)
  replay : Bool
deriving DecidableEq, Repr

/-- The inspector's optional fuzzer handle, restricted to the field replay touches. -/
structure Fuzzer where
  call_generator : Option CallGenerator
deriving DecidableEq, Repr

/-- The executor handle owned by one replay: its tracing flag, the inspector's fuzzer
state and the engine state committed so far. -/
structure Executor (S : Type) where
  tracing : Bool
  fuzzer : Option Fuzzer
  state : S
deriving DecidableEq, Repr

/-- The invariant function's relevant behaviour: its ABI encoding applied to the empty
argument list, or `none` when encoding fails. -/
structure AbiFunction where
  abi_encoded_empty_input : Option Bytes
deriving DecidableEq, Repr

/-- The invariant test contract: target address plus the invariant function. -/
structure InvariantContract where
  address : Address
  invariant_function : AbiFunction
deriving DecidableEq, Repr

/-- Modelled from the spec: `foundry_evm_core::constants::CALLER`, the fixed
system-level caller identity used for the invariant check. -/
def CALLER : Address := 0x00a329c0648769a73afac7f9381e08fb43dbea72

/-- Outcome of a failed replay: an engine error propagated unmodified, or a panic
raised by an `unwrap`/`expect`. -/
inductive RunError where
  | engine (e : EngineError)
  | panicked (msg : String)
deriving DecidableEq, Repr

/-- Whether a replay error is a panic rather than a propagated engine error. -/
def RunError.isPanic : RunError → Bool
  | .engine _ => false
  | .panicked _ => true

/-- Panic message of `Option::unwrap` on an absent value. -/
def unwrapMsg : String := "called Option::unwrap() on a None value"

/-- The caller-visible accumulators `replay_run` receives by mutable reference: logs,
traces, contexts and the optional coverage accumulator. -/
structure Accumulators where
  logs : List Log
  traces : Traces
  contexts : List Context
  coverage : Option HitMaps
deriving DecidableEq, Repr

/-- Full internal state of one replay: the executor plus all in-progress accumulators,
including the by-value contract registry and the counterexample under construction. -/
structure ReplayState (S : Type) where
  executor : Executor S
  ided_contracts : ContractsByAddress
  logs : List Log
  traces : Traces
  contexts : List Context
  coverage : Option HitMaps
  counterexample_sequence : List BaseCounterExample
deriving DecidableEq, Repr

/-- One committing sequence call (first half of the `replay_run` loop body, replay.rs
lines 39-67): execute the call, extend logs, traces and contexts, merge coverage,
identify new contracts, and append the counterexample descriptor. -/
def exec_sequence_call {S : Type} (eng : Engine S) (known_contracts : ContractsByArtifact)
    (st : ReplayState S) (tx : BasicTxDetails) : Except RunError (ReplayState S) :=
  match eng.call_raw_committing st.executor.tracing st.executor.state tx.1 tx.2.1 tx.2.2 with
  | .error e => .error (.engine e)
  | .ok (call_result, new_state) =>
    match call_result.traces with
    | none => .error (.panicked unwrapMsg)
    | some tr =>
      let ided := cbaExtend st.ided_contracts
        (eng.load_contracts [(TraceKind.Execution, tr)] known_contracts)
      .ok { executor := { st.executor with state := new_state },
            ided_contracts := ided,
            logs := st.logs ++ call_result.logs,
            traces := st.traces ++ [(TraceKind.Execution, tr)],
            contexts := st.contexts ++ call_result.contexts,
            coverage :=
              match call_result.coverage, st.coverage with
              | some new_coverage, some old_coverage =>
                some (HitMaps.merge old_coverage new_coverage)
              | some new_coverage, none => some new_coverage
              | none, _ => st.coverage,
            counterexample_sequence := st.counterexample_sequence ++
              [BaseCounterExample.create tx.1 tx.2.1 tx.2.2 ided call_result.traces] }

/-- The read-only invariant check run right after each committed call (replay.rs lines
69-82): encode the invariant call with no arguments, execute it non-committing from
`CALLER`, and fold its traces, logs and contexts into the accumulators. -/
def exec_invariant_check {S : Type} (eng : Engine S)
    (invariant_contract : InvariantContract) (st : ReplayState S) :
    Except RunError (ReplayState S) :=
  match invariant_contract.invariant_function.abi_encoded_empty_input with
  | none => .error (.panicked "invariant should have no inputs")
  | some data =>
    match eng.call_raw st.executor.tracing st.executor.state CALLER
        invariant_contract.address data with
    | .error e => .error (.engine e)
    | .ok error_call_result =>
      match error_call_result.traces with
      | none => .error (.panicked unwrapMsg)
      | some tr =>
        .ok { st with
              traces := st.traces ++ [(TraceKind.Execution, tr)],
              logs := st.logs ++ error_call_result.logs,
              contexts := st.contexts ++ error_call_result.contexts }

/-- One iteration of the `replay_run` loop: the committing sequence call followed
immediately by the read-only invariant check. -/
def replay_step {S : Type} (eng : Engine S) (invariant_contract : InvariantContract)
    (known_contracts : ContractsByArtifact) (st : ReplayState S) (tx : BasicTxDetails) :
    Except RunError (ReplayState S) :=
  match exec_sequence_call eng known_contracts st tx with
  | .error e => .error e
  | .ok st1 => exec_invariant_check eng invariant_contract st1

/-- The `replay_run` loop over the whole input sequence, in order. -/
def replay_loop {S : Type} (eng : Engine S) (invariant_contract : InvariantContract)
    (known_contracts : ContractsByArtifact) (st : ReplayState S) :
    List BasicTxDetails → Except RunError (ReplayState S)
  | [] => .ok st
  | tx :: rest =>
    match replay_step eng invariant_contract known_contracts st tx with
    | .error e => .error e
    | .ok st1 => replay_loop eng invariant_contract known_contracts st1 rest

/-- Shallow embedding of `replay_run` (replay.rs lines 22-87): enable tracing, replay
every call of `inputs` accumulating evidence, and return the updated accumulators
together with `some (Sequence ..)` for a non-empty sequence and `none` for an empty one.
The contract registry is consumed by value and is not part of the return value,
mirroring the source signature. -/
def replay_run {S : Type} (eng : Engine S) (invariant_contract : InvariantContract)
    (executor : Executor S) (known_contracts : ContractsByArtifact)
    (ided_contracts : ContractsByAddress) (acc : Accumulators)
    (inputs : List BasicTxDetails) :
    Except RunError (Accumulators × Option CounterExample) :=
  match replay_loop eng invariant_contract known_contracts
      { executor := { executor with tracing := true }, ided_contracts := ided_contracts,
        logs := acc.logs, traces := acc.traces, contexts := acc.contexts,
        coverage := acc.coverage, counterexample_sequence := [] } inputs with
  | .error e => .error e
  | .ok st =>
    .ok ({ logs := st.logs, traces := st.traces, contexts := st.contexts,
           coverage := st.coverage },
      if st.counterexample_sequence.isEmpty then none
      else some (CounterExample.Sequence st.counterexample_sequence))

/-- Modelled from the spec: the recorded test error — either the search aborted, or it
failed with a concrete call sequence attached. -/
inductive TestError where
  | abort (reason : String)
  | fail (reason : String) (calls : List BasicTxDetails)
deriving DecidableEq, Repr

/-- Modelled from the spec: the failed-case record (its type lives outside the sources),
restricted to the fields `replay_error` reads: the recorded error, the shrink flag and
the recorded inner sequence. -/
structure FailedInvariantCaseData where
  test_error : TestError
  shrink_sequence : Bool
  inner_sequence : List (Option BasicTxDetails)
deriving DecidableEq, Repr

/-- Modelled from the spec: the external minimizer (spec section 6), an oracle producing
a smaller-or-equal still-failing sequence, or an engine error. -/
abbrev ShrinkFn (S : Type) :=
  FailedInvariantCaseData → List BasicTxDetails → Executor S →
    Except RunError (List BasicTxDetails)

/-- Shallow embedding of `set_up_inner_replay` (replay.rs lines 132-139): when the
executor carries a fuzzer with a call generator, pin the generator's last sequence to
the recorded inner sequence and switch it to replay mode. -/
def set_up_inner_replay {S : Type} (executor : Executor S)
    (inner_sequence : List (Option BasicTxDetails)) : Executor S :=
  match executor.fuzzer with
  | none => executor
  | some fuzzer =>
    match fuzzer.call_generator with
    | none => executor
    | some call_generator =>
      let pinned := { call_generator with
        last_sequence := inner_sequence, replay := true }
      { executor with fuzzer := some { fuzzer with call_generator := some pinned } }

/-- Shallow embedding of `replay_error` (replay.rs lines 91-129): dispatch on the
failure kind, optionally shrink, pin the inner sequence, then delegate to `replay_run`.
The first component collects the diagnostic notes emitted while orchestrating. -/
def replay_error {S : Type} (eng : Engine S) (shrink_fn : ShrinkFn S)
    (failed_case : FailedInvariantCaseData) (invariant_contract : InvariantContract)
    (executor : Executor S) (known_contracts : ContractsByArtifact)
    (ided_contracts : ContractsByAddress) (acc : Accumulators) :
    List String × Except RunError (Accumulators × Option CounterExample) :=
  match failed_case.test_error with
  | .abort _ => ([], .ok (acc, none))
  | .fail _ calls =>
    let step :=
      if failed_case.shrink_sequence then
        (([] : List String), shrink_fn failed_case calls executor)
      else
        (["Shrinking disabled."], (.ok calls : Except RunError (List BasicTxDetails)))
    match step.2 with
    | .error e => (step.1, .error e)
    | .ok calls =>
      (step.1, replay_run eng invariant_contract
        (set_up_inner_replay executor failed_case.inner_sequence)
        known_contracts ided_contracts acc calls)

/-- A trivial engine over unit state: every call succeeds with an empty result carrying
a trace tree. -/
def unitEngine : Engine Unit where
  call_raw_committing := fun _ s _ _ _ =>
    .ok ({ logs := [], traces := some 0, coverage := none, contexts := [] }, s)
  call_raw := fun _ _ _ _ _ =>
    .ok { logs := [], traces := some 0, coverage := none, contexts := [] }
  load_contracts := fun _ _ => []

/-- An engine whose successful results carry no trace. -/
def tracelessEngine : Engine Unit where
  call_raw_committing := fun _ s _ _ _ =>
    .ok ({ logs := [], traces := none, coverage := none, contexts := [] }, s)
  call_raw := fun _ _ _ _ _ =>
    .ok { logs := [], traces := none, coverage := none, contexts := [] }
  load_contracts := fun _ _ => []

/-- An engine that fails every call. -/
def failEngine : Engine Unit where
  call_raw_committing := fun _ _ _ _ _ => .error "boom"
  call_raw := fun _ _ _ _ _ => .error "boom"
  load_contracts := fun _ _ => []

/-- An engine whose committing calls produce coverage of location 5 and whose read-only
calls produce coverage of location 9. -/
def covEngine : Engine Unit where
  call_raw_committing := fun _ s _ _ _ =>
    .ok ({ logs := [], traces := some 0, coverage := some [(5, 1)], contexts := [] }, s)
  call_raw := fun _ _ _ _ _ =>
    .ok { logs := [], traces := some 0, coverage := some [(9, 1)], contexts := [] }
  load_contracts := fun _ _ => []

/-- A concrete invariant contract whose invariant call encodes to `[7]`. -/
def ic0 : InvariantContract :=
  { address := 99, invariant_function := { abi_encoded_empty_input := some [7] } }

/-- A concrete empty artifact set. -/
def kc0 : ContractsByArtifact := []

/-- A concrete executor without a fuzzer. -/
def ex0 : Executor Unit := { tracing := false, fuzzer := none, state := () }

/-- A concrete executor carrying a fuzzer with a call generator. -/
def ex1 : Executor Unit :=
  { tracing := false,
    fuzzer := some { call_generator := some { last_sequence := [], replay := false } },
    state := () }

/-- Concrete empty accumulators. -/
def acc0 : Accumulators := { logs := [], traces := [], contexts := [], coverage := none }

/-- A concrete sequence call. -/
def tx0 : BasicTxDetails := (5, (7, [1, 2]))

/-- The descriptor `unitEngine` replay builds for `tx0`. -/
def d0 : BaseCounterExample :=
  { sender := 5, addr := 7, calldata := [1, 2], contract_name := none, traces := some 0 }

/-- A concrete shrink oracle that returns the sequence unchanged. -/
def shrinkFn0 : ShrinkFn Unit := fun _ calls _ => .ok calls

/-- A concrete replay state with a one-entry registry. -/
def st_demo : ReplayState Unit :=
  { executor := { tracing := true, fuzzer := none, state := () },
    ided_contracts := [(1, "A")], logs := [], traces := [], contexts := [],
    coverage := none, counterexample_sequence := [] }

/-- The state `unitEngine` produces from `st_demo` after replaying `tx0`. -/
def st_demo2 : ReplayState Unit :=
  { st_demo with
    traces := [(TraceKind.Execution, 0), (TraceKind.Execution, 0)],
    counterexample_sequence := [d0] }

/-- A concrete replay state with a pre-existing coverage accumulator. -/
def st_cov : ReplayState Unit :=
  { st_demo with ided_contracts := [], coverage := some [(1, 2)] }

/-- The state `covEngine` produces from `st_cov` after replaying `tx0`. -/
def st_cov2 : ReplayState Unit :=
  { st_cov with
    traces := [(TraceKind.Execution, 0), (TraceKind.Execution, 0)],
    coverage := some [(1, 2), (5, 1)],
    counterexample_sequence := [d0] }

/-- A descriptor matches a sequence call when it records that call's sender, target and
payload. -/
def DescribesCall (d : BaseCounterExample) (tx : BasicTxDetails) : Prop :=
  d.sender = tx.1 ∧ d.addr = tx.2.1 ∧ d.calldata = tx.2.2

theorem alKeys_nil {α : Type} : alKeys ([] : List (Nat × α)) = [] := rfl

theorem alKeys_cons {α : Type} (p : Nat × α) (m : List (Nat × α)) :
    alKeys (p :: m) = p.1 :: alKeys m := rfl

theorem alKeys_append {α : Type} (m n : List (Nat × α)) :
    alKeys (m ++ n) = alKeys m ++ alKeys n := List.map_append _ _ _

/-- Combining an entry in place does not change the key list. -/
theorem alKeys_map_combine {α : Type} (c : α → α → α) (kv : Nat × α) :
    ∀ m : List (Nat × α),
      alKeys (m.map (fun p => if p.1 == kv.1 then (p.1, c p.2 kv.2) else p)) = alKeys m
  | [] => rfl
  | p :: m => by
    rw [List.map_cons, alKeys_cons, alKeys_cons, alKeys_map_combine c kv m]
    cases h : p.1 == kv.1 <;> simp [h]

/-- Upserting never loses a key. -/
theorem alKeys_upsert_superset {α : Type} (c : α → α → α) (m : List (Nat × α))
    (kv : Nat × α) : alKeys m ⊆ alKeys (alUpsert c m kv) := by
  unfold alUpsert
  split
  · rw [alKeys_map_combine]
    exact fun _ h => h
  · rw [alKeys_append]
    exact List.subset_append_left _ _

/-- Upserting records the new entry's key. -/
theorem mem_alKeys_upsert {α : Type} (c : α → α → α) (m : List (Nat × α))
    (kv : Nat × α) : kv.1 ∈ alKeys (alUpsert c m kv) := by
  unfold alUpsert
  split
  · rename_i h
    rw [alKeys_map_combine]
    rw [List.any_eq_true] at h
    obtain ⟨p, hp, hpk⟩ := h
    have hk : p.1 = kv.1 := by simpa using hpk
    exact hk ▸ List.mem_map_of_mem Prod.fst hp
  · rw [alKeys_append]
    exact List.mem_append_right _ (by simp [alKeys])

/-- Folding upserts over a batch never loses a key of the base map. -/
theorem alKeys_foldl_superset {α : Type} (c : α → α → α) :
    ∀ (l : List (Nat × α)) (m : List (Nat × α)),
      alKeys m ⊆ alKeys (l.foldl (alUpsert c) m)
  | [], _ => fun _ h => h
  | kv :: l, m =>
    (alKeys_upsert_superset c m kv).trans (alKeys_foldl_superset c l (alUpsert c m kv))

/-- Folding upserts over a batch records every key of the batch. -/
theorem mem_alKeys_foldl {α : Type} (c : α → α → α) :
    ∀ (l : List (Nat × α)) (m : List (Nat × α)) (k : Nat),
      k ∈ alKeys l → k ∈ alKeys (l.foldl (alUpsert c) m)
  | kv :: l, m, k, hk => by
    rw [alKeys_cons] at hk
    rcases List.mem_cons.mp hk with h | h
    · exact h ▸ alKeys_foldl_superset c l (alUpsert c m kv) (mem_alKeys_upsert c m kv)
    · exact mem_alKeys_foldl c l (alUpsert c m kv) k h

/-- Merging coverage maps never loses a key of the accumulator. -/
theorem alKeys_merge_left (a b : HitMaps) : alKeys a ⊆ alKeys (HitMaps.merge a b) :=
  alKeys_foldl_superset _ b a

/-- Merging coverage maps records every key of the merged-in map. -/
theorem alKeys_merge_right (a b : HitMaps) : alKeys b ⊆ alKeys (HitMaps.merge a b) :=
  fun _ h => mem_alKeys_foldl _ b a _ h

/-- Extending the registry never loses a known address. -/
theorem alKeys_cbaExtend_superset (m : ContractsByAddress)
    (new : List (Address × String)) : alKeys m ⊆ alKeys (cbaExtend m new) :=
  alKeys_foldl_superset _ new m

/-- A successful committing sequence call is fully explained by the engine call it made:
the engine committed the call, the result carried a trace, and the state is the source's
field-by-field update. -/
theorem exec_sequence_call_ok {S : Type} (eng : Engine S) (kc : ContractsByArtifact)
    (st st' : ReplayState S) (tx : BasicTxDetails)
    (h : exec_sequence_call eng kc st tx = .ok st') :
    ∃ rc s2 tr,
      eng.call_raw_committing st.executor.tracing st.executor.state tx.1 tx.2.1 tx.2.2
        = .ok (rc, s2) ∧
      rc.traces = some tr ∧
      st' = { executor := { st.executor with state := s2 },
              ided_contracts := cbaExtend st.ided_contracts
                (eng.load_contracts [(TraceKind.Execution, tr)] kc),
              logs := st.logs ++ rc.logs,
              traces := st.traces ++ [(TraceKind.Execution, tr)],
              contexts := st.contexts ++ rc.contexts,
              coverage := match rc.coverage, st.coverage with
                | some nc, some oc => some (HitMaps.merge oc nc)
                | some nc, none => some nc
                | none, _ => st.coverage,
              counterexample_sequence := st.counterexample_sequence ++
                [BaseCounterExample.create tx.1 tx.2.1 tx.2.2
                  (cbaExtend st.ided_contracts
                    (eng.load_contracts [(TraceKind.Execution, tr)] kc)) rc.traces] } := by
  unfold exec_sequence_call at h
  split at h
  · cases h
  · rename_i rc s2 hres
    split at h
    · cases h
    · rename_i tr htr
      cases h
      exact ⟨rc, s2, tr, hres, htr, rfl⟩

/-- A successful invariant check is fully explained by the read-only engine call it
made from `CALLER`: it only appended that call's trace, logs and contexts. -/
theorem exec_invariant_check_ok {S : Type} (eng : Engine S) (ic : InvariantContract)
    (st st' : ReplayState S) (h : exec_invariant_check eng ic st = .ok st') :
    ∃ data ri tr,
      ic.invariant_function.abi_encoded_empty_input = some data ∧
      eng.call_raw st.executor.tracing st.executor.state CALLER ic.address data
        = .ok ri ∧
      ri.traces = some tr ∧
      st' = { st with
              traces := st.traces ++ [(TraceKind.Execution, tr)],
              logs := st.logs ++ ri.logs,
              contexts := st.contexts ++ ri.contexts } := by
  unfold exec_invariant_check at h
  split at h
  · cases h
  · rename_i data hdata
    split at h
    · cases h
    · rename_i ri hri
      split at h
      · cases h
      · rename_i tr htr
        cases h
        exact ⟨data, ri, tr, hdata, hri, htr, rfl⟩

/-- One replay step appends exactly one descriptor, built from the call's own sender,
target and payload; the interleaved invariant check contributes none. -/
theorem replay_step_cex {S : Type} (eng : Engine S) (ic : InvariantContract)
    (kc : ContractsByArtifact) (st st' : ReplayState S) (tx : BasicTxDetails)
    (h : replay_step eng ic kc st tx = .ok st') :
    ∃ d, st'.counterexample_sequence = st.counterexample_sequence ++ [d] ∧
      DescribesCall d tx := by
  unfold replay_step at h
  split at h
  · cases h
  · rename_i st1 hst1
    obtain ⟨rc, s2, tr, -, -, rfl⟩ := exec_sequence_call_ok eng kc st st1 tx hst1
    obtain ⟨data, ri, tri, -, -, -, rfl⟩ := exec_invariant_check_ok eng ic _ st' h
    exact ⟨_, rfl, rfl, rfl, rfl⟩

/-- One replay step preserves the executor's tracing flag and fuzzer state. -/
theorem replay_step_executor {S : Type} (eng : Engine S) (ic : InvariantContract)
    (kc : ContractsByArtifact) (st st' : ReplayState S) (tx : BasicTxDetails)
    (h : replay_step eng ic kc st tx = .ok st') :
    st'.executor.tracing = st.executor.tracing ∧
    st'.executor.fuzzer = st.executor.fuzzer := by
  unfold replay_step at h
  split at h
  · cases h
  · rename_i st1 hst1
    obtain ⟨rc, s2, tr, -, -, rfl⟩ := exec_sequence_call_ok eng kc st st1 tx hst1
    obtain ⟨data, ri, tri, -, -, -, rfl⟩ := exec_invariant_check_ok eng ic _ st' h
    exact ⟨rfl, rfl⟩

/-- One replay step never loses a known registry address. -/
theorem replay_step_registry {S : Type} (eng : Engine S) (ic : InvariantContract)
    (kc : ContractsByArtifact) (st st' : ReplayState S) (tx : BasicTxDetails)
    (h : replay_step eng ic kc st tx = .ok st') :
    alKeys st.ided_contracts ⊆ alKeys st'.ided_contracts := by
  unfold replay_step at h
  split at h
  · cases h
  · rename_i st1 hst1
    obtain ⟨rc, s2, tr, -, -, rfl⟩ := exec_sequence_call_ok eng kc st st1 tx hst1
    obtain ⟨data, ri, tri, -, -, -, rfl⟩ := exec_invariant_check_ok eng ic _ st' h
    exact alKeys_cbaExtend_superset _ _

/-- One replay step never loses a recorded coverage location. -/
theorem replay_step_covKeys {S : Type} (eng : Engine S) (ic : InvariantContract)
    (kc : ContractsByArtifact) (st st' : ReplayState S) (tx : BasicTxDetails)
    (h : replay_step eng ic kc st tx = .ok st') :
    covKeys st.coverage ⊆ covKeys st'.coverage := by
  unfold replay_step at h
  split at h
  · cases h
  · rename_i st1 hst1
    obtain ⟨rc, s2, tr, -, -, rfl⟩ := exec_sequence_call_ok eng kc st st1 tx hst1
    obtain ⟨data, ri, tri, -, -, -, rfl⟩ := exec_invariant_check_ok eng ic _ st' h
    cases hrc : rc.coverage with
    | none => simp [covKeys, hrc]
    | some nc =>
      cases hst : st.coverage with
      | none => simp [covKeys, hrc, hst, alKeys_nil]
      | some oc => simpa [covKeys, hrc, hst] using alKeys_merge_left oc nc

/-- The replay loop appends one matching descriptor per input call, in order. -/
theorem replay_loop_cex {S : Type} (eng : Engine S) (ic : InvariantContract)
    (kc : ContractsByArtifact) :
    ∀ (txs : List BasicTxDetails) (st st' : ReplayState S),
      replay_loop eng ic kc st txs = .ok st' →
      ∃ ds, st'.counterexample_sequence = st.counterexample_sequence ++ ds ∧
        List.Forall₂ DescribesCall ds txs
  | [], st, st', h => by
    cases h
    exact ⟨[], by simp, List.Forall₂.nil⟩
  | tx :: txs, st, st', h => by
    simp only [replay_loop] at h
    split at h
    · cases h
    · rename_i st1 hstep
      obtain ⟨ds, hds, hall⟩ := replay_loop_cex eng ic kc txs st1 st' h
      obtain ⟨d, hd, hdc⟩ := replay_step_cex eng ic kc st st1 tx hstep
      exact ⟨d :: ds, by rw [hds, hd]; simp, List.Forall₂.cons hdc hall⟩

/-- The replay loop preserves the executor's tracing flag. -/
theorem replay_loop_tracing {S : Type} (eng : Engine S) (ic : InvariantContract)
    (kc : ContractsByArtifact) :
    ∀ (txs : List BasicTxDetails) (st st' : ReplayState S),
      replay_loop eng ic kc st txs = .ok st' →
      st'.executor.tracing = st.executor.tracing
  | [], st, st', h => by cases h; rfl
  | tx :: txs, st, st', h => by
    simp only [replay_loop] at h
    split at h
    · cases h
    · rename_i st1 hstep
      rw [replay_loop_tracing eng ic kc txs st1 st' h, (replay_step_executor eng ic kc st st1 tx hstep).1]

/-- The replay loop never loses a known registry address. -/
theorem replay_loop_registry {S : Type} (eng : Engine S) (ic : InvariantContract)
    (kc : ContractsByArtifact) :
    ∀ (txs : List BasicTxDetails) (st st' : ReplayState S),
      replay_loop eng ic kc st txs = .ok st' →
      alKeys st.ided_contracts ⊆ alKeys st'.ided_contracts
  | [], st, st', h => by cases h; exact fun _ hk => hk
  | tx :: txs, st, st', h => by
    simp only [replay_loop] at h
    split at h
    · cases h
    · rename_i st1 hstep
      exact (replay_step_registry eng ic kc st st1 tx hstep).trans
        (replay_loop_registry eng ic kc txs st1 st' h)

/-- The replay loop never loses a recorded coverage location. -/
theorem replay_loop_covKeys {S : Type} (eng : Engine S) (ic : InvariantContract)
    (kc : ContractsByArtifact) :
    ∀ (txs : List BasicTxDetails) (st st' : ReplayState S),
      replay_loop eng ic kc st txs = .ok st' →
      covKeys st.coverage ⊆ covKeys st'.coverage
  | [], st, st', h => by cases h; exact fun _ hk => hk
  | tx :: txs, st, st', h => by
    simp only [replay_loop] at h
    split at h
    · cases h
    · rename_i st1 hstep
      exact (replay_step_covKeys eng ic kc st st1 tx hstep).trans
        (replay_loop_covKeys eng ic kc txs st1 st' h)

/-- The replay loop splits along list concatenation. -/
theorem replay_loop_append {S : Type} (eng : Engine S) (ic : InvariantContract)
    (kc : ContractsByArtifact) :
    ∀ (pre post : List BasicTxDetails) (st : ReplayState S),
      replay_loop eng ic kc st (pre ++ post)
        = match replay_loop eng ic kc st pre with
          | .error e => .error e
          | .ok st1 => replay_loop eng ic kc st1 post
  | [], post, st => by simp [replay_loop]
  | tx :: pre, post, st => by
    rw [List.cons_append]
    simp only [replay_loop]
    cases h : replay_step eng ic kc st tx with
    | error e => simp
    | ok st1 => simpa using replay_loop_append eng ic kc pre post st1

/-- C9: Replaying an empty call sequence returns no counterexample and leaves every
accumulator unchanged — logs, traces, contexts and the coverage accumulator come back
exactly as given (a `none` coverage accumulator stays `none`); the result does not
depend on the engine at all, the only executor interaction being the tracing enable. -/
theorem replay_run_empty_sequence {S : Type} (eng : Engine S) (ic : InvariantContract)
    (ex : Executor S) (kc : ContractsByArtifact) (idc : ContractsByAddress)
    (acc : Accumulators) :
    replay_run eng ic ex kc idc acc [] = .ok (acc, none) := rfl

/-- C5: For an Abort-kind failed case, `replay_error` returns no counterexample
immediately: the accumulators come back unchanged, no diagnostic is emitted, and the
result does not depend on the engine, the shrink oracle or the executor — so the
execution engine is never invoked and nothing is shrunk or mutated. -/
theorem replay_error_abort_short_circuit {S : Type} (eng : Engine S)
    (shrink_fn : ShrinkFn S) (reason : String) (shrink_flag : Bool)
    (inner : List (Option BasicTxDetails)) (ic : InvariantContract) (ex : Executor S)
    (kc : ContractsByArtifact) (idc : ContractsByAddress) (acc : Accumulators) :
    replay_error eng shrink_fn
      { test_error := .abort reason, shrink_sequence := shrink_flag,
        inner_sequence := inner }
      ic ex kc idc acc = ([], .ok (acc, none)) := rfl

/-- C8: For a Fail-kind failed case with shrinking disabled, `replay_error` emits the
diagnostic note that shrinking was skipped and hands the Sequence Replayer exactly the
failed case's original recorded call sequence, unchanged. -/
theorem replay_error_shrink_disabled {S : Type} (eng : Engine S) (shrink_fn : ShrinkFn S)
    (reason : String) (calls : List BasicTxDetails)
    (inner : List (Option BasicTxDetails)) (ic : InvariantContract) (ex : Executor S)
    (kc : ContractsByArtifact) (idc : ContractsByAddress) (acc : Accumulators) :
    replay_error eng shrink_fn
      { test_error := .fail reason calls, shrink_sequence := false,
        inner_sequence := inner }
      ic ex kc idc acc
      = (["Shrinking disabled."],
         replay_run eng ic (set_up_inner_replay ex inner) kc idc acc calls) := rfl

/-- C1: A successful `replay_run` returns `none` for an empty input sequence; for a
non-empty input sequence of length N it returns `some (Sequence descriptors)` with
exactly N descriptors, one per input call in the same order, each built from that
call's sender, target and payload. -/
theorem replay_run_length_correspondence {S : Type} (eng : Engine S)
    (ic : InvariantContract) (ex : Executor S) (kc : ContractsByArtifact)
    (idc : ContractsByAddress) (acc : Accumulators) (inputs : List BasicTxDetails)
    (acc' : Accumulators) (cex : Option CounterExample)
    (h : replay_run eng ic ex kc idc acc inputs = .ok (acc', cex)) :
    (inputs = [] → cex = none) ∧
    (inputs ≠ [] → ∃ ds, cex = some (CounterExample.Sequence ds) ∧
      ds.length = inputs.length ∧ List.Forall₂ DescribesCall ds inputs) := by
  unfold replay_run at h
  split at h
  · cases h
  · rename_i st hloop
    obtain ⟨ds, hds, hall⟩ := replay_loop_cex eng ic kc inputs _ st hloop
    rw [List.nil_append] at hds
    simp only [Except.ok.injEq, Prod.mk.injEq] at h
    obtain ⟨-, hcex⟩ := h
    subst hcex
    constructor
    · rintro rfl
      cases hall
      rw [hds]
      rfl
    · intro hne
      refine ⟨ds, ?_, hall.length_eq, hall⟩
      cases ds with
      | nil => cases hall; exact absurd rfl hne
      | cons d rest => rw [hds]; rfl

/-- C1 witness: the length correspondence applied to a concrete one-call replay. -/
theorem replay_run_length_correspondence_witness :
    ((([tx0] : List BasicTxDetails) = []) →
      (some (CounterExample.Sequence [d0]) : Option CounterExample) = none) ∧
    (([tx0] : List BasicTxDetails) ≠ [] → ∃ ds,
      (some (CounterExample.Sequence [d0]) : Option CounterExample)
        = some (CounterExample.Sequence ds) ∧
      ds.length = [tx0].length ∧ List.Forall₂ DescribesCall ds [tx0]) :=
  replay_run_length_correspondence unitEngine ic0 ex0 kc0 [] acc0 [tx0]
    { acc0 with traces := [(TraceKind.Execution, 0), (TraceKind.Execution, 0)] }
    (some (CounterExample.Sequence [d0])) rfl

/-- C6 counterexample: two different input registries produce identical `replay_run`
return values, so the updated registry is not part of what `replay_run` returns to its
caller; the sequence here is empty, refuting the regardless-of-emptiness reading. -/
theorem replay_run_registry_not_returned :
    replay_run unitEngine ic0 ex0 kc0 [(1, "A")] acc0 []
      = replay_run unitEngine ic0 ex0 kc0 [] acc0 []
    ∧ ([((1 : Address), "A")] : ContractsByAddress) ≠ [] :=
  ⟨rfl, by simp⟩

/-- C6 amended: the contract registry grows monotonically during a single replay —
after each call, and across the whole loop, its set of known addresses is a superset
of what it was before — but the registry is consumed by value and is not part of the
`replay_run` return value; its contents reach the caller only inside the descriptors. -/
theorem replay_registry_monotone {S : Type} (eng : Engine S) (ic : InvariantContract)
    (kc : ContractsByArtifact) :
    (∀ (st st' : ReplayState S) (tx : BasicTxDetails),
       replay_step eng ic kc st tx = .ok st' →
       alKeys st.ided_contracts ⊆ alKeys st'.ided_contracts) ∧
    (∀ (txs : List BasicTxDetails) (st st' : ReplayState S),
       replay_loop eng ic kc st txs = .ok st' →
       alKeys st.ided_contracts ⊆ alKeys st'.ided_contracts) :=
  ⟨fun st st' tx h => replay_step_registry eng ic kc st st' tx h,
   fun txs st st' h => replay_loop_registry eng ic kc txs st st' h⟩

/-- C6 amended witness: registry monotonicity applied to a concrete one-call replay. -/
theorem replay_registry_monotone_witness :
    alKeys st_demo.ided_contracts ⊆ alKeys st_demo2.ided_contracts :=
  (replay_registry_monotone unitEngine ic0 kc0).2 [tx0] st_demo st_demo2 rfl

/-- C7: merging coverage maps never drops a hit location from either side; each
committing call's coverage map is merged into the running accumulator exactly as the
source does — initializing the accumulator from the call's map when none exists yet,
and leaving the accumulator untouched when the call produced none — so every covered
location of the call enters the accumulator at that step; and across the whole loop
the accumulator's hit-location set only grows, hence the final merged map's hit set is
a superset of every individual call's. -/
theorem replay_coverage_merge {S : Type} (eng : Engine S) (ic : InvariantContract)
    (kc : ContractsByArtifact) :
    (∀ a b : HitMaps, alKeys a ⊆ alKeys (HitMaps.merge a b) ∧
       alKeys b ⊆ alKeys (HitMaps.merge a b)) ∧
    (∀ (st st' : ReplayState S) (tx : BasicTxDetails) (rc : RawCallResult) (s2 : S),
       exec_sequence_call eng kc st tx = .ok st' →
       eng.call_raw_committing st.executor.tracing st.executor.state tx.1 tx.2.1 tx.2.2
         = .ok (rc, s2) →
       (st'.coverage = match rc.coverage, st.coverage with
         | some nc, some oc => some (HitMaps.merge oc nc)
         | some nc, none => some nc
         | none, _ => st.coverage) ∧
       (∀ m, rc.coverage = some m → alKeys m ⊆ covKeys st'.coverage)) ∧
    (∀ (txs : List BasicTxDetails) (st st' : ReplayState S),
       replay_loop eng ic kc st txs = .ok st' →
       covKeys st.coverage ⊆ covKeys st'.coverage) := by
  refine ⟨fun a b => ⟨alKeys_merge_left a b, alKeys_merge_right a b⟩, ?_,
    fun txs st st' h => replay_loop_covKeys eng ic kc txs st st' h⟩
  intro st st' tx rc s2 hexec hcall
  obtain ⟨rc', s2', tr, hcall', htr, rfl⟩ := exec_sequence_call_ok eng kc st st' tx hexec
  rw [hcall] at hcall'
  cases hcall'
  refine ⟨rfl, ?_⟩
  intro m hm
  cases hst : st.coverage with
  | none => simp [hm, hst, covKeys]
  | some oc => simpa [hm, hst, covKeys] using alKeys_merge_right oc m

/-- C7 witness: coverage monotonicity applied to a concrete one-call replay in which
the call contributes location 5 on top of an accumulator holding location 1. -/
theorem replay_coverage_merge_witness :
    covKeys st_cov.coverage ⊆ covKeys st_cov2.coverage :=
  (replay_coverage_merge covEngine ic0 kc0).2.2 [tx0] st_cov st_cov2 rfl

/-- C3: If the engine fails on any call of the sequence — whether the committing
sequence call or the read-only invariant check that follows it — the whole replay
aborts at that point: the remaining calls are never executed, the engine's error is
propagated unmodified (wrapped in no retry), and the error return carries no
counterexample of any kind, truncated or otherwise. -/
theorem replay_loop_error_propagation {S : Type} (eng : Engine S)
    (ic : InvariantContract) (kc : ContractsByArtifact) (st stMid : ReplayState S)
    (pre post : List BasicTxDetails) (sndr a : Address) (b : Bytes)
    (h1 : replay_loop eng ic kc st pre = .ok stMid) :
    (∀ e, eng.call_raw_committing stMid.executor.tracing stMid.executor.state sndr a b
        = .error e →
      replay_loop eng ic kc st (pre ++ (sndr, (a, b)) :: post) = .error (.engine e)) ∧
    (∀ rc s2 tr data e,
      eng.call_raw_committing stMid.executor.tracing stMid.executor.state sndr a b
        = .ok (rc, s2) →
      rc.traces = some tr →
      ic.invariant_function.abi_encoded_empty_input = some data →
      eng.call_raw stMid.executor.tracing s2 CALLER ic.address data = .error e →
      replay_loop eng ic kc st (pre ++ (sndr, (a, b)) :: post) = .error (.engine e)) := by
  constructor
  · intro e he
    rw [replay_loop_append eng ic kc pre _ st, h1]
    simp only [replay_loop, replay_step]
    unfold exec_sequence_call
    rw [he]
  · intro rc s2 tr data e hok htr hd he
    rw [replay_loop_append eng ic kc pre _ st, h1]
    simp only [replay_loop, replay_step]
    unfold exec_sequence_call
    rw [hok]
    dsimp only
    rw [htr]
    dsimp only
    unfold exec_invariant_check
    rw [hd]
    dsimp only
    rw [he]

/-- C3 witness: a concrete failing engine aborts a one-call replay with its own error. -/
theorem replay_loop_error_propagation_witness :
    replay_loop failEngine ic0 kc0 st_demo [(5, (7, [1, 2]))]
      = .error (.engine "boom") :=
  (replay_loop_error_propagation failEngine ic0 kc0 st_demo st_demo [] [] 5 7 [1, 2]
    rfl).1 "boom" rfl

/-- C2 counterexample: the invariant check's fixed caller is not guaranteed distinct
from the sequence senders — a sequence whose recorded sender is the `CALLER` constant
itself replays successfully, that sender ending up in the descriptor. -/
theorem replay_caller_collision :
    replay_run unitEngine ic0 ex0 kc0 [] acc0 [(CALLER, (7, [1, 2]))]
      = .ok ({ acc0 with traces := [(TraceKind.Execution, 0), (TraceKind.Execution, 0)] },
          some (CounterExample.Sequence [{ d0 with sender := CALLER }]))
    ∧ ((CALLER, ((7 : Address), ([1, 2] : Bytes))) : BasicTxDetails).1 = CALLER :=
  ⟨rfl, rfl⟩

/-- C2 amended: immediately after committing each sequence call the invariant check is
executed against the invariant target as a read-only call (the committed state `s2` is
left exactly as the sequence call produced it) with the encoded zero-argument invariant
calldata, from the fixed system-level `CALLER` constant — though nothing prevents a
sequence sender from coinciding with it; the check's logs, traces and contexts are
appended to the accumulators exactly like a sequence call's, while it adds no
counterexample entry and its coverage is never merged; moreover the step's only
read-only engine query is the one at `CALLER` and the invariant target. -/
theorem replay_step_invariant_check {S : Type} (eng : Engine S) (ic : InvariantContract)
    (kc : ContractsByArtifact) (st : ReplayState S) (tx : BasicTxDetails)
    (rc : RawCallResult) (s2 : S) (trc : TraceTree) (data : Bytes)
    (ri : RawCallResult) (tri : TraceTree)
    (hc : eng.call_raw_committing st.executor.tracing st.executor.state tx.1 tx.2.1 tx.2.2
        = .ok (rc, s2))
    (ht : rc.traces = some trc)
    (hd : ic.invariant_function.abi_encoded_empty_input = some data)
    (hi : eng.call_raw st.executor.tracing s2 CALLER ic.address data = .ok ri)
    (hti : ri.traces = some tri) :
    replay_step eng ic kc st tx = .ok
      { executor := { st.executor with state := s2 },
        ided_contracts := cbaExtend st.ided_contracts
          (eng.load_contracts [(TraceKind.Execution, trc)] kc),
        logs := st.logs ++ rc.logs ++ ri.logs,
        traces := st.traces ++ [(TraceKind.Execution, trc)]
          ++ [(TraceKind.Execution, tri)],
        contexts := st.contexts ++ rc.contexts ++ ri.contexts,
        coverage := match rc.coverage, st.coverage with
          | some nc, some oc => some (HitMaps.merge oc nc)
          | some nc, none => some nc
          | none, _ => st.coverage,
        counterexample_sequence := st.counterexample_sequence ++
          [BaseCounterExample.create tx.1 tx.2.1 tx.2.2
            (cbaExtend st.ided_contracts
              (eng.load_contracts [(TraceKind.Execution, trc)] kc)) rc.traces] }
    ∧ ∀ eng2 : Engine S,
        eng2.call_raw_committing = eng.call_raw_committing →
        eng2.load_contracts = eng.load_contracts →
        (∀ (fl : Bool) (s0 : S), eng2.call_raw fl s0 CALLER ic.address data
          = eng.call_raw fl s0 CALLER ic.address data) →
        replay_step eng2 ic kc st tx = replay_step eng ic kc st tx := by
  constructor
  · unfold replay_step exec_sequence_call
    rw [hc]
    dsimp only
    rw [ht]
    dsimp only
    unfold exec_invariant_check
    rw [hd]
    dsimp only
    rw [hi]
    dsimp only
    rw [hti]
  · intro eng2 h1 h2 h3
    unfold replay_step exec_sequence_call exec_invariant_check
    rw [h1, h2, hd]
    cases hcc : eng.call_raw_committing st.executor.tracing st.executor.state
        tx.1 tx.2.1 tx.2.2 with
    | error e => rfl
    | ok p =>
      obtain ⟨rc2, s22⟩ := p
      dsimp only
      cases htr2 : rc2.traces with
      | none => rfl
      | some tr2 =>
        dsimp only
        rw [h3]

/-- C2 amended witness: the step characterization applied to a concrete call. -/
theorem replay_step_invariant_check_witness :
    replay_step unitEngine ic0 kc0 st_demo tx0 = .ok st_demo2 :=
  (replay_step_invariant_check unitEngine ic0 kc0 st_demo tx0
    { logs := [], traces := some 0, coverage := none, contexts := [] } () 0 [7]
    { logs := [], traces := some 0, coverage := none, contexts := [] } 0
    rfl rfl rfl rfl rfl).1

/-- C4: For every Fail-kind failed case, the executor handed to the Sequence Replayer
is exactly the pinned one: `replay_error` installs the failed case's inner sequence
into the nested-generator state and sets its replay-mode flag to true strictly before
`replay_run` is invoked — with shrinking disabled and enabled alike — so every call
executed during the replay sees the fully pinned generator state. -/
theorem replay_error_pins_inner_sequence {S : Type} (eng : Engine S)
    (shrink_fn : ShrinkFn S) (fc : FailedInvariantCaseData) (ic : InvariantContract)
    (ex : Executor S) (kc : ContractsByArtifact) (idc : ContractsByAddress)
    (acc : Accumulators) (reason : String) (calls : List BasicTxDetails)
    (hfail : fc.test_error = .fail reason calls) :
    (fc.shrink_sequence = false →
      replay_error eng shrink_fn fc ic ex kc idc acc
        = (["Shrinking disabled."],
           replay_run eng ic (set_up_inner_replay ex fc.inner_sequence) kc idc acc
             calls)) ∧
    (∀ calls2, fc.shrink_sequence = true → shrink_fn fc calls ex = .ok calls2 →
      replay_error eng shrink_fn fc ic ex kc idc acc
        = ([], replay_run eng ic (set_up_inner_replay ex fc.inner_sequence) kc idc acc
             calls2)) ∧
    (∀ f g, ex.fuzzer = some f → f.call_generator = some g →
      (set_up_inner_replay ex fc.inner_sequence).fuzzer
        = some ⟨some ⟨fc.inner_sequence, true⟩⟩) := by
  refine ⟨?_, ?_, ?_⟩
  · intro hs
    unfold replay_error
    rw [hfail, hs]
    rfl
  · intro calls2 hs hshrink
    unfold replay_error
    rw [hfail, hs]
    dsimp only
    rw [hshrink]
    rfl
  · intro f g hf hg
    unfold set_up_inner_replay
    rw [hf]
    dsimp only
    rw [hg]

/-- C4 witness: the pin equations applied to a concrete Fail-kind case whose executor
carries a call generator. -/
theorem replay_error_pins_inner_sequence_witness :
    replay_error unitEngine shrinkFn0
      { test_error := .fail "err" [tx0], shrink_sequence := false,
        inner_sequence := [some tx0] } ic0 ex1 kc0 [] acc0
      = (["Shrinking disabled."],
         replay_run unitEngine ic0 (set_up_inner_replay ex1 [some tx0]) kc0 [] acc0
           [tx0]) :=
  (replay_error_pins_inner_sequence unitEngine shrinkFn0
    { test_error := .fail "err" [tx0], shrink_sequence := false,
      inner_sequence := [some tx0] } ic0 ex1 kc0 [] acc0 "err" [tx0] rfl).1 rfl

/-- Under traced-engine hypotheses a failing replay step is an engine error, never a
panic. -/
theorem replay_step_no_panic {S : Type} (eng : Engine S) (ic : InvariantContract)
    (kc : ContractsByArtifact)
    (h1 : ∀ (s0 : S) (sndr a : Address) (b : Bytes) (rc : RawCallResult) (s2 : S),
      eng.call_raw_committing true s0 sndr a b = .ok (rc, s2) → rc.traces.isSome = true)
    (h2 : ∀ (s0 : S) (sndr a : Address) (b : Bytes) (rc : RawCallResult),
      eng.call_raw true s0 sndr a b = .ok rc → rc.traces.isSome = true)
    (data : Bytes) (hd : ic.invariant_function.abi_encoded_empty_input = some data)
    (st : ReplayState S) (htrace : st.executor.tracing = true) (tx : BasicTxDetails) :
    ∀ e, replay_step eng ic kc st tx = .error e → RunError.isPanic e = false := by
  intro e h
  unfold replay_step at h
  split at h
  · rename_i e0 hseq
    cases h
    unfold exec_sequence_call at hseq
    split at hseq
    · rename_i e1 hcall
      cases hseq
      rfl
    · rename_i rc s2 hcall
      split at hseq
      · rename_i htrc
        rw [htrace] at hcall
        have hsome := h1 _ _ _ _ _ _ hcall
        rw [htrc] at hsome
        simp at hsome
      · cases hseq
  · rename_i st1 hseq
    obtain ⟨rc, s2, tr, hcall, htrc, rfl⟩ := exec_sequence_call_ok eng kc st st1 tx hseq
    unfold exec_invariant_check at h
    rw [hd] at h
    dsimp only at h
    rw [htrace] at h
    split at h
    · rename_i e1 hro
      cases h
      rfl
    · rename_i ri hro
      split at h
      · rename_i htri
        have hsome := h2 _ _ _ _ _ hro
        rw [htri] at hsome
        simp at hsome
      · cases h

/-- Under traced-engine hypotheses a failing replay loop is an engine error, never a
panic. -/
theorem replay_loop_no_panic {S : Type} (eng : Engine S) (ic : InvariantContract)
    (kc : ContractsByArtifact)
    (h1 : ∀ (s0 : S) (sndr a : Address) (b : Bytes) (rc : RawCallResult) (s2 : S),
      eng.call_raw_committing true s0 sndr a b = .ok (rc, s2) → rc.traces.isSome = true)
    (h2 : ∀ (s0 : S) (sndr a : Address) (b : Bytes) (rc : RawCallResult),
      eng.call_raw true s0 sndr a b = .ok rc → rc.traces.isSome = true)
    (data : Bytes) (hd : ic.invariant_function.abi_encoded_empty_input = some data) :
    ∀ (txs : List BasicTxDetails) (st : ReplayState S),
      st.executor.tracing = true →
      ∀ e, replay_loop eng ic kc st txs = .error e → RunError.isPanic e = false
  | [], st, htrace, e, h => by cases h
  | tx :: txs, st, htrace, e, h => by
    simp only [replay_loop] at h
    split at h
    · rename_i e0 hstep
      cases h
      exact replay_step_no_panic eng ic kc h1 h2 data hd st htrace tx e hstep
    · rename_i st1 hstep
      have ht1 : st1.executor.tracing = true := by
        rw [(replay_step_executor eng ic kc st st1 tx hstep).1, htrace]
      exact replay_loop_no_panic eng ic kc h1 h2 data hd txs st1 ht1 e h

/-- C10: `replay_run` unconditionally unwraps the traces of every committed sequence
call and of every invariant check; under the precondition that the engine returns a
trace for each successful call once tracing is enabled — and `replay_run` enables
tracing as its first action — these unwrap branches are unreachable, so a failing
replay is always a propagated engine error and never a panic; while for an engine
whose results carry no trace, `replay_run` panics rather than returning an error, as
the concrete traceless run shows. -/
theorem replay_run_traces_unwrap :
    (∀ (S : Type) (eng : Engine S) (ic : InvariantContract) (ex : Executor S)
       (kc : ContractsByArtifact) (idc : ContractsByAddress) (acc : Accumulators)
       (inputs : List BasicTxDetails) (data : Bytes),
       (∀ (s0 : S) (sndr a : Address) (b : Bytes) (rc : RawCallResult) (s2 : S),
         eng.call_raw_committing true s0 sndr a b = .ok (rc, s2) →
           rc.traces.isSome = true) →
       (∀ (s0 : S) (sndr a : Address) (b : Bytes) (rc : RawCallResult),
         eng.call_raw true s0 sndr a b = .ok rc → rc.traces.isSome = true) →
       ic.invariant_function.abi_encoded_empty_input = some data →
       ∀ e, replay_run eng ic ex kc idc acc inputs = .error e →
         RunError.isPanic e = false) ∧
    replay_run tracelessEngine ic0 ex0 kc0 [] acc0 [tx0]
      = .error (.panicked unwrapMsg) := by
  constructor
  · intro S eng ic ex kc idc acc inputs data h1 h2 hd e h
    unfold replay_run at h
    split at h
    · rename_i e0 hloop
      cases h
      exact replay_loop_no_panic eng ic kc h1 h2 data hd inputs _ rfl e hloop
    · cases h
  · rfl

/-- C10 witness: the no-panic guarantee applied to a concrete trace-returning engine,
alongside the concrete panicking traceless run. -/
theorem replay_run_traces_unwrap_witness :
    (∀ e, replay_run unitEngine ic0 ex0 kc0 [] acc0 [tx0] = .error e →
      RunError.isPanic e = false) ∧
    replay_run tracelessEngine ic0 ex0 kc0 [] acc0 [tx0]
      = .error (.panicked unwrapMsg) :=
  ⟨fun e h => replay_run_traces_unwrap.1 Unit unitEngine ic0 ex0 kc0 [] acc0 [tx0] [7]
      (fun _ _ _ _ _ _ hok => by cases hok; rfl)
      (fun _ _ _ _ _ hok => by cases hok; rfl) rfl e h,
    replay_run_traces_unwrap.2⟩

end Foundry
